import Mathlib

/-!
# Verification of the `simple-beautiful-bracket` core (src/app/page.tsx)

Shallow embedding of the bracket data model and the three core operations of
the source file `src/app/page.tsx`:

* `generateBracketData` (source lines 433–492): bracket construction in
  random or manual mode.  The JavaScript shuffle
  (`[...competitors].sort(() => Math.random() - 0.5)`) produces an arbitrary
  permutation of the input list; it is modelled by taking the already
  shuffled list `players` as the input, and theorems quantify over it (or
  over an arbitrary permutation of a given competitor list).  The calls to
  `Math.random() > 0.5` that pick winners in random mode are modelled by a
  stream of booleans `coins` that is consumed left to right (`true` picks
  slot `a`, matching `Math.random() > 0.5 ? match.a : match.b`).
* `handleWinnerSelect` (lines 562–598) with its inner recursive helper
  `clearFutureProgression` (lines 567–577): the progression engine.
* `handleCompetitorChangeInBracket` (lines 540–561): identifier-keyed field
  propagation.
* `numCompetitors` / `imageWidth` / `imageHeight` (lines 109–112 of
  `BracketShareView`): the export resolution policy.

The JavaScript `for`/`while` loops and the recursion of
`clearFutureProgression` are compiled to structural recursion on the exact
number of remaining iterations: every loop bound (`newRounds.length`) is
invariant during the loop (array writes by index never change lengths, which
is proved below as `stepAt_rounds_length` and `clearLoop` length lemmas), so
the count-indexed recursions below perform exactly the iterations the source
performs.  JavaScript statements that would throw a `TypeError` (indexing a
property of `undefined`) abandon the local deep copies and leave the React
state unchanged; operations whose in-range behaviour the claims discuss model
those throw paths by returning `none`.  Accesses that can only fail on stores
whose `winners` list is shorter than their `rounds` list — shapes never
produced by `generateBracketData` nor by the handlers — are modelled with
`List.getD`/`List.set` defaults, which are no-ops out of range.
-/

/-- `Competitor` (source lines 9–14).  `images` carries only the URLs; it is
never inspected by the core logic. -/
structure Competitor where
  id : String
  name : String
  subtitle : Option String := none
  images : List String := []
deriving DecidableEq, Repr

/-- `Match` (source lines 16–19): two optional slots.  JavaScript `null` and
`undefined` slot values are both modelled as `none` (the source only ever
tests them for truthiness). -/
structure Match where
  a : Option Competitor
  b : Option Competitor
deriving DecidableEq, Repr

/-- The bracket store: the `{ rounds, winners }` pair held in the
`bracketData` React state (source line 496). -/
structure Store where
  rounds : List (List Match)
  winners : List (List Competitor)
deriving DecidableEq, Repr

/-- The `mode` React state of the hosting `App` (source line 500). -/
inductive Mode
  | random
  | manual
deriving DecidableEq, Repr

/-- The `'a' | 'b'` competitor keys used for match slots. -/
inductive SlotKey
  | a
  | b
deriving DecidableEq, Repr

/-- The editable fields `'name' | 'subtitle'` of a competitor. -/
inductive FieldKey
  | name
  | subtitle
deriving DecidableEq, Repr

/-- Read a slot of a match by key. -/
def slotOf (mt : Match) (k : SlotKey) : Option Competitor :=
  match k with
  | .a => mt.a
  | .b => mt.b

/-- Overwrite a slot of a match by key. -/
def setSlot (mt : Match) (k : SlotKey) (v : Option Competitor) : Match :=
  match k with
  | .a => { mt with a := v }
  | .b => { mt with b := v }

/-- `matchIndex % 2 === 0 ? 'a' : 'b'` (source lines 477, 570, 586). -/
def slotFor (mi : Nat) : SlotKey :=
  if mi % 2 == 0 then .a else .b

/-- `m.a?.id === id || m.b?.id === id` (source lines 474, 584). -/
def matchHasId (mt : Match) (i : String) : Bool :=
  mt.a.any (fun c => c.id == i) || mt.b.any (fun c => c.id == i)

/-- The guarded array write `if (round?.[mi]) { round[mi][k] = v }`
(source lines 479, 587): a no-op when the round or the match is absent. -/
def writeSlot (rounds : List (List Match)) (r mi : Nat) (k : SlotKey)
    (v : Option Competitor) : List (List Match) :=
  match rounds[r]? with
  | none => rounds
  | some rd =>
    match rd[mi]? with
    | none => rounds
    | some mt => rounds.set r (rd.set mi (setSlot mt k v))

/-- The round-0 pairing loop
`for (let i = 0; i < players.length; i += 2) push({a: players[i], b: players[i+1]})`
(source line 441) and the identical pairing of the random-mode round loop
(source line 455): an out-of-range `players[i+1]` is `undefined`, i.e. an
absent `b` slot. -/
def pairUp : List Competitor → List Match
  | [] => []
  | [x] => [⟨some x, none⟩]
  | x :: y :: rest => ⟨some x, some y⟩ :: pairUp rest

/-- Winner resolution of a freshly built round (source lines 444–448 for
round 0, and lines 456–460 inside the random-mode loop, which implement the
same per-match rule): a sole occupant advances; a contested match advances a
coin-picked occupant in random mode and nobody in manual mode.  Returns the
winners together with the unconsumed coins. -/
def resolveMatches (isManual : Bool) : List Match → List Bool →
    List Competitor × List Bool
  | [], coins => ([], coins)
  | mt :: rest, coins =>
    match mt.a, mt.b with
    | some x, none =>
      let rw := resolveMatches isManual rest coins
      (x :: rw.1, rw.2)
    | some x, some y =>
      if isManual then
        resolveMatches isManual rest coins
      else
        let w := if coins.headD true then x else y
        let rw := resolveMatches isManual rest coins.tail
        (w :: rw.1, rw.2)
    | none, _ => resolveMatches isManual rest coins

/-- The manual-mode placeholder construction
`while (lastRoundMatchCount > 1) { push(Array.from({length: ceil(m/2)}, () => ({a:null,b:null}))) }`
(source lines 465–471), as structural recursion on a fuel that bounds the
iteration count; `fuel = m` always suffices because the match count at least
halves every iteration (see `emptyRoundsLoop_fuel`). -/
def emptyRoundsLoop : Nat → Nat → List (List Match)
  | 0, _ => []
  | fuel + 1, m =>
    if m ≤ 1 then []
    else
      let next := (m + 1) / 2
      List.replicate next ⟨none, none⟩ :: emptyRoundsLoop fuel next

/-- The random-mode round loop `while (currentPlayers.length > 1)` (source
lines 452–463), as structural recursion on a fuel that bounds the iteration
count; `fuel = currentPlayers.length` always suffices because the player
count strictly shrinks every iteration (see `randomRounds_fuel`). -/
def randomRounds : Nat → List Competitor → List Bool →
    List (List Match) × List (List Competitor)
  | 0, _, _ => ([], [])
  | fuel + 1, current, coins =>
    if current.length ≤ 1 then ([], [])
    else
      let ms := pairUp current
      let rw := resolveMatches false ms coins
      let rest := randomRounds fuel rw.1 rw.2
      (ms :: rest.1, rw.1 :: rest.2)

/-- One pass of `allWinners[r].forEach(winner => ...)` (source lines 473–481
and identically lines 583–589): write every round-`r` winner, in winners-list
order, into its destination slot of round `r+1`, locating its match by
identifier in the current state of round `r`.  (`forEach` threads the array
state left to right, which is this recursion.) -/
def forwardWrites (rounds : List (List Match)) (r : Nat) :
    List Competitor → List (List Match)
  | [] => rounds
  | w :: ws =>
    let next :=
      match (rounds.getD r []).findIdx? (fun mt => matchHasId mt w.id) with
      | none => rounds
      | some mi => writeSlot rounds (r + 1) (mi / 2) (slotFor mi) (some w)
    forwardWrites next r ws

/-- The lone-occupant scan `nextRound.forEach(match => ...)` (source lines
484–487 and identically lines 591–594): a match of the next round holding
exactly one occupant pushes that occupant onto the next round's winners,
unless an entry with its identifier is already present.  Processes matches
left to right, threading the winners list. -/
def byeScan : List Match → List Competitor → List Competitor
  | [], ws => ws
  | mt :: rest, ws =>
    let ws1 :=
      match mt.a, mt.b with
      | some x, none =>
        if ws.any (fun w => w.id == x.id) then ws else ws ++ [x]
      | _, _ => ws
    let ws2 :=
      match mt.a, mt.b with
      | none, some y =>
        if ws1.any (fun w => w.id == y.id) then ws1 else ws1 ++ [y]
      | _, _ => ws1
    byeScan rest ws2

/-- One iteration body of the forward-propagation loop (source lines
472–489 / 581–596) at loop index `r`: forward round-`r` winners, then scan
round `r+1` for lone occupants. -/
def stepAt (s : Store) (r : Nat) : Store :=
  let rounds1 := forwardWrites s.rounds r (s.winners.getD r [])
  let nextWs := byeScan (rounds1.getD (r + 1) []) (s.winners.getD (r + 1) [])
  ⟨rounds1, s.winners.set (r + 1) nextWs⟩

/-- The forward-propagation loop `for (let r = start; r < rounds.length - 1; r++)`
as structural recursion on the exact remaining iteration count (the bound
`rounds.length` is loop-invariant: `stepAt_rounds_length` below). -/
def propLoop : Nat → Store → Nat → Store
  | 0, s, _ => s
  | count + 1, s, r => propLoop count (stepAt s r) (r + 1)

/-- Forward propagation starting at round `start` (source lines 472–489 in
the builder with `start = 0`, lines 581–596 in the progression engine with
`start = roundIndex`). -/
def propagateForward (s : Store) (start : Nat) : Store :=
  propLoop (s.rounds.length - 1 - start) s start

/-- Round-0 construction (source lines 436–442):
`if (players.length % 2 !== 0) byePlayer = players.pop()`, pair the
remaining players consecutively, and append the bye match `{a: byePlayer,
b: null}` when one was popped. -/
def round0Matches (players : List Competitor) : List Match :=
  if players.length % 2 != 0 then
    pairUp players.dropLast ++
      (match players.getLast? with
       | some p => [⟨some p, none⟩]
       | none => [])
  else pairUp players

/-- `generateBracketData` (source lines 433–492).  `players` is the shuffled
competitor list (the shuffle being an arbitrary permutation of the caller's
list), `isManual` the mode flag, `coins` the entropy stream for random-mode
winner picks. -/
def generateBracketData (players : List Competitor) (isManual : Bool)
    (coins : List Bool) : Store :=
  if players.length < 2 then ⟨[], []⟩
  else
    let ms := round0Matches players
    let rw := resolveMatches isManual ms coins
    if isManual then
      let extraRounds := emptyRoundsLoop ms.length ms.length
      propagateForward
        ⟨ms :: extraRounds,
          rw.1 :: List.replicate extraRounds.length ([] : List Competitor)⟩ 0
    else
      let rest := randomRounds rw.1.length rw.1 rw.2
      ⟨ms :: rest.1, rw.1 :: rest.2⟩

/-- The recursion of `clearFutureProgression` (source lines 567–577), as
structural recursion on the exact remaining depth
`rounds.length - (currentRound + 1)` (the guard
`if (currentRound + 1 >= newRounds.length) return` is `count = 0`; the
length of `rounds` is invariant under the slot clears). -/
def clearLoop : Nat → List (List Match) → List (List Competitor) →
    Nat → Nat → List (List Match) × List (List Competitor)
  | 0, rounds, winners, _, _ => (rounds, winners)
  | count + 1, rounds, winners, _r, mi =>
    let nmi := mi / 2
    let ns := slotFor mi
    match ((rounds.getD (_r + 1) [])[nmi]?).bind (fun mt => slotOf mt ns) with
    | none => (rounds, winners)
    | some c =>
      let rounds' := writeSlot rounds (_r + 1) nmi ns none
      let winners' :=
        winners.set (_r + 1)
          ((winners.getD (_r + 1) []).filter (fun w => w.id != c.id))
      clearLoop count rounds' winners' (_r + 1) nmi

/-- `clearFutureProgression(roundIndex, matchIndex)` (source lines 567–577):
walk the forward path from the given match, clearing the progressed occupant
of each chain slot and removing it from the corresponding winners list,
stopping at the first unpopulated chain slot or at the last round. -/
def clearFutureProgression (rounds : List (List Match))
    (winners : List (List Competitor)) (r mi : Nat) :
    List (List Match) × List (List Competitor) :=
  clearLoop (rounds.length - 1 - r) rounds winners r mi

/-- `handleWinnerSelect` (source lines 562–598).  `mode` is the hosting
application's current mode state: line 563 returns early (state unchanged)
when it is `random`.  `none` models the `TypeError` thrown for an
out-of-range `roundIndex` (line 566) or `matchIndex` (line 579), both of
which leave the React state unchanged. -/
def handleWinnerSelect (mode : Mode) (s : Store) (roundIndex matchIndex : Nat)
    (winner : Competitor) : Option Store :=
  if mode = Mode.random then some s
  else
    match s.rounds[roundIndex]? with
    | none => none
    | some rd =>
      match rd[matchIndex]? with
      | none => none
      | some mt =>
        let cw := clearFutureProgression s.rounds s.winners roundIndex matchIndex
        -- `newWinners[r] = newWinners[r].filter(w => w.id !== match.a?.id && w.id !== match.b?.id)`
        -- then `newWinners[r].push(winner)` (lines 579–580)
        let wr :=
          (cw.2.getD roundIndex []).filter
            (fun w =>
              !(mt.a.any (fun c => c.id == w.id)) &&
              !(mt.b.any (fun c => c.id == w.id)))
        let winners2 := cw.2.set roundIndex (wr ++ [winner])
        some (propagateForward ⟨cw.1, winners2⟩ roundIndex)

/-- Apply a field edit to a competitor:
`{ ...competitorToUpdate, [field]: value }` (source line 547). -/
def applyField (c : Competitor) (f : FieldKey) (v : String) : Competitor :=
  match f with
  | .name => { c with name := v }
  | .subtitle => { c with subtitle := some v }

/-- Read the edited field back; the subtitle field reads through its
`Option` (the edit always stores a present subtitle). -/
def fieldVal (c : Competitor) (f : FieldKey) : String :=
  match f with
  | .name => c.name
  | .subtitle => c.subtitle.getD ""

/-- The per-match slot rewrite of `handleCompetitorChangeInBracket`
(source lines 548–553): each slot whose occupant's identifier equals
`originalId` is overwritten with the updated competitor. -/
def updMatchSlots (originalId : String) (updated : Competitor) (m0 : Match) :
    Match :=
  let m1 :=
    if m0.a.any (fun d => d.id == originalId) then { m0 with a := some updated }
    else m0
  if m1.b.any (fun d => d.id == originalId) then { m1 with b := some updated }
  else m1

/-- The per-winner rewrite of `handleCompetitorChangeInBracket`
(source lines 554–558). -/
def updWinner (originalId : String) (updated : Competitor) (w : Competitor) :
    Competitor :=
  if w.id == originalId then updated else w

/-- `handleCompetitorChangeInBracket` (source lines 540–561): replace, in
every match slot of every round and in every winners entry, each competitor
whose identifier equals that of the referenced competitor by the updated
competitor.  `none` models the `TypeError` for an out-of-range round or
match index; an empty referenced slot leaves the store unchanged (no
`setBracketData` call). -/
def handleCompetitorChangeInBracket (s : Store) (roundIndex matchIndex : Nat)
    (k : SlotKey) (f : FieldKey) (v : String) : Option Store :=
  match s.rounds[roundIndex]? with
  | none => none
  | some rd =>
    match rd[matchIndex]? with
    | none => none
    | some mt =>
      match slotOf mt k with
      | none => some s
      | some c =>
        let updated := applyField c f v
        let originalId := c.id
        some
          ⟨s.rounds.map (fun rnd => rnd.map (updMatchSlots originalId updated)),
            s.winners.map (fun wl => wl.map (updWinner originalId updated))⟩

/-- `numCompetitors` of `BracketShareView` (source line 109):
`rounds[0].length * 2 - (rounds[0][rounds[0].length-1]?.b ? 0 : 1)`, and `0`
for an empty bracket.  `Int`-valued because an empty round 0 yields `-1` in
the source. -/
def numCompetitors (rounds : List (List Match)) : Int :=
  if rounds.length > 0 then
    let r0 := rounds.headD []
    (r0.length : Int) * 2 -
      (match r0.getLast? |>.bind (fun mt => mt.b) with
       | some _ => 0
       | none => 1)
  else 0

/-- Export canvas width (source line 110). -/
def imageWidth (rounds : List (List Match)) : Nat :=
  if numCompetitors rounds > 50 then 3840 else 1920

/-- Export canvas height (source line 111). -/
def imageHeight (rounds : List (List Match)) : Nat :=
  if numCompetitors rounds > 50 then 2160 else 1080

/-- The derived champion: `winners[winners.length - 1]?.[0] || null`
(source line 414). -/
def champion (s : Store) : Option Competitor :=
  (s.winners.getLast?.getD []).head?

/-- Round `k` of a store (absent rounds read as empty). -/
def roundAt (s : Store) (k : Nat) : List Match :=
  s.rounds.getD k []

/-- Winners list of round `k` of a store (absent lists read as empty). -/
def winnersAt (s : Store) (k : Nat) : List Competitor :=
  s.winners.getD k []

/-- Occupant of slot `key` of match `m` of round `r` (absent positions read
as empty). -/
def getSlot (s : Store) (r m : Nat) (k : SlotKey) : Option Competitor :=
  slotOf ((roundAt s r).getD m ⟨none, none⟩) k

/-- Specification-side list of round sizes: the match counts obtained by
repeatedly taking `ceil(m / 2)` starting from `m`, until a round of one
match.  Both modes of `generateBracketData` produce rounds with exactly
these match counts (proved below). -/
def roundSizes (m : Nat) : List Nat :=
  m :: (if h : m ≤ 1 then [] else roundSizes ((m + 1) / 2))
termination_by m
decreasing_by omega

/-- Occupants of a list of matches, in slot order. -/
def occupantsOf (ms : List Match) : List Competitor :=
  ms.flatMap (fun mt => mt.a.toList ++ mt.b.toList)

/-! ## Concrete fixtures

Competitors and stores used by the concrete theorems below.  `selM` runs a
manual-mode winner selection and, purely to stay in `Store`, falls back to
the unchanged store on the `none` (thrown-exception) path; every concrete
use below is in range, which the theorems certify by also stating the
corresponding `handleWinnerSelect ... = some ...` equation. -/

def cA : Competitor := { id := "A", name := "Alpha" }

def cB : Competitor := { id := "B", name := "Bravo" }

def cC : Competitor := { id := "C", name := "Charlie" }

def cD : Competitor := { id := "D", name := "Delta" }

def cE : Competitor := { id := "E", name := "Echo" }

def cF : Competitor := { id := "F", name := "Foxtrot" }

def cG : Competitor := { id := "G", name := "Golf" }

def cH : Competitor := { id := "H", name := "Hotel" }

def cX : Competitor := { id := "X", name := "Xray" }

def selM (s : Store) (r m : Nat) (w : Competitor) : Store :=
  (handleWinnerSelect Mode.manual s r m w).getD s

/-- Chain a manual-mode selection through `Option` (a failed step
propagates as `none`). -/
def sel? (os : Option Store) (r m : Nat) (w : Competitor) : Option Store :=
  os.bind (fun s => handleWinnerSelect Mode.manual s r m w)

/-- 5-competitor manual bracket (shuffle fixed to the listed order):
rounds of sizes 3, 2, 1; `cE` is the round-0 bye holder. -/
def s5 : Store := generateBracketData [cA, cB, cC, cD, cE] true []

/-- `s5` after selecting `cA` at round-0 match 0 (stated as a literal; the
theorems certify `handleWinnerSelect Mode.manual s5 0 0 cA = some s5a`). -/
def s5a : Store :=
  ⟨[[⟨some cA, some cB⟩, ⟨some cC, some cD⟩, ⟨some cE, none⟩],
    [⟨some cA, none⟩, ⟨some cE, none⟩],
    [⟨some cA, some cE⟩]],
   [[cE, cA], [cE, cA], [cE]]⟩

/-- `s5a` after selecting `cC` at round-0 match 1.  (Selecting `cA` at
round-1 match 0 afterwards reproduces `s5b` itself, certified below.) -/
def s5b : Store :=
  ⟨[[⟨some cA, some cB⟩, ⟨some cC, some cD⟩, ⟨some cE, none⟩],
    [⟨some cA, some cC⟩, ⟨some cE, none⟩],
    [⟨some cA, some cE⟩]],
   [[cE, cA, cC], [cE, cA], [cE]]⟩

/-- `s5b` after selecting `cA` at the final round-2 match. -/
def s5d : Store :=
  ⟨[[⟨some cA, some cB⟩, ⟨some cC, some cD⟩, ⟨some cE, none⟩],
    [⟨some cA, some cC⟩, ⟨some cE, none⟩],
    [⟨some cA, some cE⟩]],
   [[cE, cA, cC], [cE, cA], [cA]]⟩

/-- 8-competitor manual bracket (shuffle fixed to the listed order). -/
def s8 : Store := generateBracketData [cA, cB, cC, cD, cE, cF, cG, cH] true []

/-- The 8-competitor bracket progressed to a full resolution with champion
`cA` (selections bottom-up: A, C, E, G in round 0; A, E in round 1; A in
round 2).  Stated as a literal; `c1_counterexample` certifies that the
seven-selection chain from `s8` produces exactly this store. -/
def s8prog : Store :=
  ⟨[[⟨some cA, some cB⟩, ⟨some cC, some cD⟩, ⟨some cE, some cF⟩,
      ⟨some cG, some cH⟩],
    [⟨some cA, some cC⟩, ⟨some cE, some cG⟩],
    [⟨some cA, some cE⟩]],
   [[cA, cC, cE, cG], [cA, cE], [cA]]⟩

/-- `s8prog` after re-selecting the different winner `cB` for round-0
match 0 (whose original winner `cA` had reached the champion slot). -/
def s8resel : Store :=
  ⟨[[⟨some cA, some cB⟩, ⟨some cC, some cD⟩, ⟨some cE, some cF⟩,
      ⟨some cG, some cH⟩],
    [⟨some cB, some cC⟩, ⟨some cE, some cG⟩],
    [⟨none, some cE⟩]],
   [[cC, cE, cG, cB], [cE], [cE]]⟩

/-- An ill-formed store (not producible by `generateBracketData`): round 1
has a lone occupant `cX` that is absent from `winners[1]`. -/
def sBad : Store :=
  ⟨[[⟨some cA, some cB⟩], [⟨none, none⟩, ⟨some cX, none⟩]], [[], []]⟩

/-- A random-mode-built 4-competitor store (coins pick slot `a` twice:
winners A, C, then A). -/
def sRand : Store := generateBracketData [cA, cB, cC, cD] false [true, true]

/-- A round-0 of 26 fully-occupied matches (52 competitors). -/
def bigRound0 : List Match :=
  (List.range 26).map (fun i =>
    ⟨some { id := "L" ++ toString i, name := "L" ++ toString i },
      some { id := "R" ++ toString i, name := "R" ++ toString i }⟩)

def bigRounds : List (List Match) := [bigRound0]

/-! ## Basic structural lemmas -/

theorem roundSizes_of_le_one {m : Nat} (h : m ≤ 1) : roundSizes m = [m] := by
  rw [roundSizes]; simp [h]

theorem roundSizes_of_one_lt {m : Nat} (h : 1 < m) :
    roundSizes m = m :: roundSizes ((m + 1) / 2) := by
  rw [roundSizes]; simp [Nat.not_le_of_lt h]

theorem roundSizes_head {m : Nat} : (roundSizes m).getD 0 0 = m := by
  rw [roundSizes]; rfl

theorem roundSizes_cons_tail {m : Nat} (_h : 1 ≤ m) :
    m :: (roundSizes m).tail = roundSizes m := by
  by_cases h1 : m ≤ 1
  · rw [roundSizes_of_le_one h1]; rfl
  · rw [roundSizes_of_one_lt (by omega)]; rfl

theorem roundSizes_length {m : Nat} (h : 1 ≤ m) :
    (roundSizes m).length = Nat.clog 2 m + 1 := by
  induction m using Nat.strong_induction_on with
  | _ m ih =>
    by_cases h1 : m ≤ 1
    · have hm : m = 1 := by omega
      subst hm
      rw [roundSizes_of_le_one (by omega)]
      simp [Nat.clog_one_right]
    · rw [roundSizes_of_one_lt (by omega), List.length_cons,
        ih ((m + 1) / 2) (by omega) (by omega)]
      have hc := Nat.clog_of_two_le (b := 2) (n := m) (by norm_num) (by omega)
      have h21 : m + 2 - 1 = m + 1 := by omega
      rw [h21] at hc
      omega

theorem roundSizes_getLast {m : Nat} (h : 1 ≤ m) :
    (roundSizes m).getLast? = some 1 := by
  induction m using Nat.strong_induction_on with
  | _ m ih =>
    by_cases h1 : m ≤ 1
    · have hm : m = 1 := by omega
      subst hm
      rw [roundSizes_of_le_one (by omega)]
      rfl
    · rw [roundSizes_of_one_lt (by omega)]
      have hnext := ih ((m + 1) / 2) (by omega) (by omega)
      rw [roundSizes] at hnext ⊢
      simpa using hnext

theorem roundSizes_chain {m : Nat} :
    ∀ k, k + 1 < (roundSizes m).length →
      (roundSizes m).getD (k + 1) 0 = ((roundSizes m).getD k 0 + 1) / 2 := by
  induction m using Nat.strong_induction_on with
  | _ m ih =>
    intro k hk
    by_cases h1 : m ≤ 1
    · rw [roundSizes_of_le_one h1] at hk
      simp at hk
    · rw [roundSizes_of_one_lt (by omega)] at hk ⊢
      cases k with
      | zero =>
        simp only [List.getD_cons_succ, List.getD_cons_zero]
        exact roundSizes_head
      | succ k =>
        simp only [List.getD_cons_succ]
        exact ih ((m + 1) / 2) (by omega) k (by simpa using hk)

theorem pairUp_length (l : List Competitor) :
    (pairUp l).length = (l.length + 1) / 2 := by
  induction l using pairUp.induct <;> simp [pairUp, *]
  omega

theorem pairUp_a_isSome (l : List Competitor) :
    ∀ mt ∈ pairUp l, mt.a.isSome := by
  induction l using pairUp.induct <;> simp_all [pairUp]

theorem pairUp_b_isSome (l : List Competitor) (h : l.length % 2 = 0) :
    ∀ mt ∈ pairUp l, mt.b.isSome := by
  induction l using pairUp.induct with
  | case1 => simp [pairUp]
  | case2 x => simp at h
  | case3 x y rest ih =>
    have hr : rest.length % 2 = 0 := by simp at h; omega
    intro mt hmt
    rcases (by simpa [pairUp] using hmt : mt = ⟨some x, some y⟩ ∨ mt ∈ pairUp rest) with
      h' | h'
    · subst h'; rfl
    · exact ih hr mt h'

theorem occupantsOf_pairUp (l : List Competitor) :
    occupantsOf (pairUp l) = l := by
  induction l using pairUp.induct <;> simp_all [occupantsOf, pairUp]

theorem resolveMatches_fst_length_le (im : Bool) (ms : List Match) :
    ∀ coins : List Bool, ((resolveMatches im ms coins).1).length ≤ ms.length := by
  induction ms with
  | nil => intro coins; simp [resolveMatches]
  | cons mt rest ih =>
    intro coins
    rcases mt with ⟨a, b⟩
    rcases a with _ | x <;> rcases b with _ | y <;>
      simp only [resolveMatches, List.length_cons]
    · exact Nat.le_succ_of_le (ih coins)
    · exact Nat.le_succ_of_le (ih coins)
    · exact Nat.succ_le_succ (ih coins)
    · split
      · exact Nat.le_succ_of_le (ih coins)
      · exact Nat.succ_le_succ (ih coins.tail)

theorem resolveMatches_false_length (ms : List Match)
    (h : ∀ mt ∈ ms, mt.a.isSome) :
    ∀ coins : List Bool, ((resolveMatches false ms coins).1).length = ms.length := by
  induction ms with
  | nil => intro coins; simp [resolveMatches]
  | cons mt rest ih =>
    intro coins
    have ha : mt.a.isSome := h mt (by simp)
    have hr : ∀ m ∈ rest, m.a.isSome := fun m hm => h m (by simp [hm])
    rcases mt with ⟨a, b⟩
    rcases a with _ | x
    · simp at ha
    · rcases b with _ | y <;>
        simp only [resolveMatches, List.length_cons, Bool.false_eq_true, if_false]
      · rw [ih hr coins]
      · rw [ih hr coins.tail]

theorem resolveMatches_true_snd (ms : List Match) :
    ∀ coins : List Bool, (resolveMatches true ms coins).2 = coins := by
  induction ms with
  | nil => intro coins; simp [resolveMatches]
  | cons mt rest ih =>
    intro coins
    rcases mt with ⟨a, b⟩
    rcases a with _ | x <;> rcases b with _ | y <;>
      simp only [resolveMatches, if_true] <;> exact ih _

theorem resolveMatches_append (im : Bool) (ms1 ms2 : List Match) :
    ∀ coins : List Bool,
      resolveMatches im (ms1 ++ ms2) coins =
        ((resolveMatches im ms1 coins).1 ++
            (resolveMatches im ms2 (resolveMatches im ms1 coins).2).1,
          (resolveMatches im ms2 (resolveMatches im ms1 coins).2).2) := by
  induction ms1 with
  | nil => intro coins; simp [resolveMatches]
  | cons mt rest ih =>
    intro coins
    rcases mt with ⟨a, b⟩
    rcases a with _ | x <;> rcases b with _ | y <;>
      simp only [List.cons_append, resolveMatches, List.append_eq] <;>
      first
        | (split <;> simp only [ih, List.cons_append])
        | rw [ih]

theorem resolveMatches_true_pairUp_even (l : List Competitor)
    (h : l.length % 2 = 0) :
    ∀ coins : List Bool, (resolveMatches true (pairUp l) coins).1 = [] := by
  induction l using pairUp.induct with
  | case1 => intro coins; simp [pairUp, resolveMatches]
  | case2 x => simp at h
  | case3 x y rest ih =>
    intro coins
    have hr : rest.length % 2 = 0 := by simp at h; omega
    simpa [pairUp, resolveMatches] using ih hr coins

/-! ## Length and low-index preservation of the propagation loops -/

theorem set_self_of_getElem? {α : Type _} (l : List α) (i : Nat) (a : α)
    (h : l[i]? = some a) : l.set i a = l := by
  induction l generalizing i with
  | nil => simp at h
  | cons x xs ih =>
    cases i with
    | zero => simp_all
    | succ i => simp_all

theorem writeSlot_map_length (rounds : List (List Match)) (r mi : Nat)
    (k : SlotKey) (v : Option Competitor) :
    (writeSlot rounds r mi k v).map List.length = rounds.map List.length := by
  unfold writeSlot
  split
  · rfl
  next rd h1 =>
    split
    · rfl
    next mt h2 =>
      rw [List.map_set]
      apply set_self_of_getElem?
      rw [List.getElem?_map, h1]
      simp

theorem writeSlot_length (rounds : List (List Match)) (r mi : Nat)
    (k : SlotKey) (v : Option Competitor) :
    (writeSlot rounds r mi k v).length = rounds.length := by
  have := congrArg List.length (writeSlot_map_length rounds r mi k v)
  simpa using this

theorem writeSlot_getElem?_ne (rounds : List (List Match)) (r mi : Nat)
    (k : SlotKey) (v : Option Competitor) (j : Nat) (h : j ≠ r) :
    (writeSlot rounds r mi k v)[j]? = rounds[j]? := by
  unfold writeSlot
  split
  · rfl
  next rd h1 =>
    split
    · rfl
    next mt h2 => exact List.getElem?_set_ne (by omega)

theorem forwardWrites_map_length (r : Nat) (ws : List Competitor) :
    ∀ rounds : List (List Match),
      (forwardWrites rounds r ws).map List.length = rounds.map List.length := by
  induction ws with
  | nil => intro rounds; rfl
  | cons w ws ih =>
    intro rounds
    show (forwardWrites _ r ws).map List.length = _
    cases hf : (rounds.getD r []).findIdx? (fun mt => matchHasId mt w.id) with
    | none => simp only [forwardWrites, hf]; exact ih rounds
    | some mi =>
      simp only [forwardWrites, hf]
      rw [ih _, writeSlot_map_length]

theorem forwardWrites_getElem?_le (r : Nat) (ws : List Competitor) :
    ∀ (rounds : List (List Match)) (j : Nat), j ≤ r →
      (forwardWrites rounds r ws)[j]? = rounds[j]? := by
  induction ws with
  | nil => intro rounds j _; rfl
  | cons w ws ih =>
    intro rounds j hj
    cases hf : (rounds.getD r []).findIdx? (fun mt => matchHasId mt w.id) with
    | none => simp only [forwardWrites, hf]; exact ih rounds j hj
    | some mi =>
      simp only [forwardWrites, hf]
      rw [ih _ j hj, writeSlot_getElem?_ne _ _ _ _ _ _ (by omega)]

theorem stepAt_rounds_map_length (s : Store) (r : Nat) :
    (stepAt s r).rounds.map List.length = s.rounds.map List.length :=
  forwardWrites_map_length r _ s.rounds

theorem stepAt_rounds_length (s : Store) (r : Nat) :
    (stepAt s r).rounds.length = s.rounds.length := by
  have := congrArg List.length (stepAt_rounds_map_length s r)
  simpa using this

theorem stepAt_winners_length (s : Store) (r : Nat) :
    (stepAt s r).winners.length = s.winners.length := by
  simp [stepAt]

theorem stepAt_rounds_getElem?_le (s : Store) (r j : Nat) (hj : j ≤ r) :
    (stepAt s r).rounds[j]? = s.rounds[j]? :=
  forwardWrites_getElem?_le r _ s.rounds j hj

theorem stepAt_winners_getElem?_le (s : Store) (r j : Nat) (hj : j ≤ r) :
    (stepAt s r).winners[j]? = s.winners[j]? := by
  simp only [stepAt]
  exact List.getElem?_set_ne (by omega)

theorem propLoop_rounds_map_length :
    ∀ (count : Nat) (s : Store) (r : Nat),
      (propLoop count s r).rounds.map List.length = s.rounds.map List.length := by
  intro count
  induction count with
  | zero => intro s r; rfl
  | succ c ih =>
    intro s r
    show (propLoop c (stepAt s r) (r + 1)).rounds.map List.length = _
    rw [ih, stepAt_rounds_map_length]

theorem propLoop_rounds_getElem?_le :
    ∀ (count : Nat) (s : Store) (r j : Nat), j ≤ r →
      (propLoop count s r).rounds[j]? = s.rounds[j]? := by
  intro count
  induction count with
  | zero => intro s r j _; rfl
  | succ c ih =>
    intro s r j hj
    show (propLoop c (stepAt s r) (r + 1)).rounds[j]? = _
    rw [ih _ _ j (by omega), stepAt_rounds_getElem?_le s r j hj]

theorem propLoop_winners_getElem?_le :
    ∀ (count : Nat) (s : Store) (r j : Nat), j ≤ r →
      (propLoop count s r).winners[j]? = s.winners[j]? := by
  intro count
  induction count with
  | zero => intro s r j _; rfl
  | succ c ih =>
    intro s r j hj
    show (propLoop c (stepAt s r) (r + 1)).winners[j]? = _
    rw [ih _ _ j (by omega), stepAt_winners_getElem?_le s r j hj]

theorem emptyRoundsLoop_map_length :
    ∀ (fuel m : Nat), 1 ≤ m → m ≤ fuel →
      m :: (emptyRoundsLoop fuel m).map List.length = roundSizes m := by
  intro fuel
  induction fuel with
  | zero => intro m h1 h2; omega
  | succ fuel ih =>
    intro m h1 h2
    by_cases hm : m ≤ 1
    · rw [roundSizes_of_le_one hm]
      simp [emptyRoundsLoop, hm]
    · rw [roundSizes_of_one_lt (by omega)]
      simp only [emptyRoundsLoop, if_neg hm, List.map_cons, List.length_replicate]
      rw [ih ((m + 1) / 2) (by omega) (by omega)]

theorem randomRounds_map_length :
    ∀ (fuel : Nat) (cur : List Competitor) (coins : List Bool),
      1 ≤ cur.length → cur.length ≤ fuel →
      (randomRounds fuel cur coins).1.map List.length = (roundSizes cur.length).tail ∧
      (randomRounds fuel cur coins).2.map List.length = (roundSizes cur.length).tail := by
  intro fuel
  induction fuel with
  | zero => intro cur coins h1 h2; omega
  | succ fuel ih =>
    intro cur coins h1 h2
    by_cases hc : cur.length ≤ 1
    · have hone : cur.length = 1 := by omega
      rw [roundSizes_of_le_one (by omega)]
      simp [randomRounds, hc]
    · have hws : ((resolveMatches false (pairUp cur) coins).1).length = (cur.length + 1) / 2 := by
        rw [resolveMatches_false_length _ (pairUp_a_isSome cur) coins, pairUp_length]
      have hrec := ih (resolveMatches false (pairUp cur) coins).1
        (resolveMatches false (pairUp cur) coins).2 (by omega) (by omega)
      rw [roundSizes_of_one_lt (by omega)]
      simp only [randomRounds, if_neg hc, List.map_cons, List.tail_cons, pairUp_length]
      refine ⟨?_, ?_⟩
      · rw [hrec.1, ← hws]
        rw [hws, roundSizes_cons_tail (by omega)]
      · rw [hrec.2, ← hws]
        rw [hws, roundSizes_cons_tail (by omega)]

/-! ## Round 0 structure -/

theorem round0Matches_length (players : List Competitor) :
    (round0Matches players).length = (players.length + 1) / 2 := by
  unfold round0Matches
  by_cases hodd : players.length % 2 = 0
  · simp only [hodd]
    simp [pairUp_length]
  · have hne : players ≠ [] := by
      intro h; subst h; simp at hodd
    have hlast : ∃ p, players.getLast? = some p := by
      cases h : players.getLast? with
      | none => exact absurd (List.getLast?_eq_none_iff.1 h) hne
      | some p => exact ⟨p, rfl⟩
    rcases hlast with ⟨p, hp⟩
    simp only [bne_iff_ne, ne_eq, hodd, not_false_eq_true, if_true, hp]
    rw [List.length_append, pairUp_length, List.length_dropLast]
    simp only [List.length_cons, List.length_nil]
    omega

theorem round0Matches_a_isSome (players : List Competitor) :
    ∀ mt ∈ round0Matches players, mt.a.isSome := by
  unfold round0Matches
  intro mt hmt
  by_cases hodd : players.length % 2 = 0
  · simp only [hodd] at hmt
    simp at hmt
    exact pairUp_a_isSome players mt hmt
  · simp only [bne_iff_ne, ne_eq, hodd, not_false_eq_true, if_true] at hmt
    rcases List.mem_append.1 hmt with h | h
    · exact pairUp_a_isSome _ mt h
    · cases hp : players.getLast? with
      | none => rw [hp] at h; simp at h
      | some p =>
        rw [hp] at h
        simp at h
        subst h
        rfl

theorem round0Matches_occupants (players : List Competitor) :
    occupantsOf (round0Matches players) = players := by
  unfold round0Matches
  by_cases hodd : players.length % 2 = 0
  · simp only [hodd]
    simp [occupantsOf_pairUp]
  · have hne : players ≠ [] := by
      intro h; subst h; simp at hodd
    cases hp : players.getLast? with
    | none => exact absurd (List.getLast?_eq_none_iff.1 hp) hne
    | some p =>
      simp only [bne_iff_ne, ne_eq, hodd, not_false_eq_true, if_true, hp]
      unfold occupantsOf
      rw [List.flatMap_append]
      show occupantsOf (pairUp players.dropLast) ++ _ = players
      rw [occupantsOf_pairUp]
      simpa using List.dropLast_append_getLast? p hp

/-! ## Characterizations of `generateBracketData` -/

theorem generateBracketData_manual (players : List Competitor)
    (coins : List Bool) (h : 2 ≤ players.length) :
    generateBracketData players true coins =
      propagateForward
        ⟨round0Matches players ::
            emptyRoundsLoop (round0Matches players).length (round0Matches players).length,
          (resolveMatches true (round0Matches players) coins).1 ::
            List.replicate
              (emptyRoundsLoop (round0Matches players).length (round0Matches players).length).length
              ([] : List Competitor)⟩ 0 := by
  unfold generateBracketData
  rw [if_neg (by omega)]
  rfl

theorem generateBracketData_random (players : List Competitor)
    (coins : List Bool) (h : 2 ≤ players.length) :
    generateBracketData players false coins =
      ⟨round0Matches players ::
          (randomRounds (resolveMatches false (round0Matches players) coins).1.length
            (resolveMatches false (round0Matches players) coins).1
            (resolveMatches false (round0Matches players) coins).2).1,
        (resolveMatches false (round0Matches players) coins).1 ::
          (randomRounds (resolveMatches false (round0Matches players) coins).1.length
            (resolveMatches false (round0Matches players) coins).1
            (resolveMatches false (round0Matches players) coins).2).2⟩ := by
  unfold generateBracketData
  rw [if_neg (by omega)]
  rfl

theorem gen_rounds_map_length (players : List Competitor) (isManual : Bool)
    (coins : List Bool) (h : 2 ≤ players.length) :
    (generateBracketData players isManual coins).rounds.map List.length =
      roundSizes ((players.length + 1) / 2) := by
  have hm0 : (round0Matches players).length = (players.length + 1) / 2 :=
    round0Matches_length players
  have hm1 : 1 ≤ (round0Matches players).length := by omega
  cases isManual with
  | true =>
    rw [generateBracketData_manual players coins h]
    unfold propagateForward
    rw [propLoop_rounds_map_length, List.map_cons,
      emptyRoundsLoop_map_length _ _ hm1 (le_refl _), hm0]
  | false =>
    rw [generateBracketData_random players coins h]
    have hws : ((resolveMatches false (round0Matches players) coins).1).length =
        (round0Matches players).length :=
      resolveMatches_false_length _ (round0Matches_a_isSome players) coins
    show (_ :: _).map List.length = _
    rw [List.map_cons,
      (randomRounds_map_length _ _ _ (by omega) (le_refl _)).1, hws, hm0,
      roundSizes_cons_tail (by omega)]

theorem gen_random_winners_map_length (players : List Competitor)
    (coins : List Bool) (h : 2 ≤ players.length) :
    (generateBracketData players false coins).winners.map List.length =
      roundSizes ((players.length + 1) / 2) := by
  have hm0 : (round0Matches players).length = (players.length + 1) / 2 :=
    round0Matches_length players
  have hws : ((resolveMatches false (round0Matches players) coins).1).length =
      (round0Matches players).length :=
    resolveMatches_false_length _ (round0Matches_a_isSome players) coins
  rw [generateBracketData_random players coins h]
  show (_ :: _).map List.length = _
  rw [List.map_cons,
    (randomRounds_map_length _ _ _ (by omega) (le_refl _)).2, hws, hm0,
    roundSizes_cons_tail (by omega)]

theorem length_getD_map {α : Type _} (l : List (List α)) (k : Nat) :
    (l.getD k []).length = (l.map List.length).getD k 0 := by
  rw [List.getD_eq_getElem?_getD, List.getD_eq_getElem?_getD, List.getElem?_map]
  cases l[k]? <;> rfl

theorem gen_roundZero (players : List Competitor) (isManual : Bool)
    (coins : List Bool) (h : 2 ≤ players.length) :
    roundAt (generateBracketData players isManual coins) 0 = round0Matches players := by
  cases isManual with
  | true =>
    rw [generateBracketData_manual players coins h]
    unfold roundAt propagateForward
    rw [List.getD_eq_getElem?_getD, propLoop_rounds_getElem?_le _ _ 0 0 (le_refl 0)]
    simp
  | false =>
    rw [generateBracketData_random players coins h]
    rfl

theorem gen_manual_winnersZero (players : List Competitor) (coins : List Bool)
    (h : 2 ≤ players.length) :
    winnersAt (generateBracketData players true coins) 0 =
      (resolveMatches true (round0Matches players) coins).1 := by
  rw [generateBracketData_manual players coins h]
  unfold winnersAt propagateForward
  rw [List.getD_eq_getElem?_getD, propLoop_winners_getElem?_le _ _ 0 0 (le_refl 0)]
  simp

/-! ## Claim theorems -/

/-- C3 (Round sizing): for every competitor list of length `n ≥ 2` (the
shuffle being an arbitrary permutation, `players` ranges over all orders)
and either mode flag, `generateBracketData` produces exactly
`ceil(log2 n) = Nat.clog 2 n` rounds, round 0 has `ceil(n/2) = (n+1)/2`
matches, every round `k+1` has `ceil(matches(k)/2)` matches, and the final
round has exactly one match. -/
theorem c3_round_sizing (players : List Competitor) (isManual : Bool)
    (coins : List Bool) (h : 2 ≤ players.length) :
    (generateBracketData players isManual coins).rounds.length =
        Nat.clog 2 players.length ∧
    (roundAt (generateBracketData players isManual coins) 0).length =
        (players.length + 1) / 2 ∧
    (∀ k, k + 1 < (generateBracketData players isManual coins).rounds.length →
      (roundAt (generateBracketData players isManual coins) (k + 1)).length =
        ((roundAt (generateBracketData players isManual coins) k).length + 1) / 2) ∧
    ((generateBracketData players isManual coins).rounds.getLast?.getD []).length = 1 := by
  have hmap := gen_rounds_map_length players isManual coins h
  have hm1 : 1 ≤ (players.length + 1) / 2 := by omega
  refine ⟨?_, ?_, ?_, ?_⟩
  · have hlen := congrArg List.length hmap
    rw [List.length_map] at hlen
    rw [hlen, roundSizes_length hm1]
    have hc := Nat.clog_of_two_le (b := 2) (n := players.length) (by norm_num) h
    have h21 : players.length + 2 - 1 = players.length + 1 := by omega
    rw [h21] at hc
    omega
  · unfold roundAt
    rw [length_getD_map, hmap, roundSizes_head]
  · intro k hk
    have hk' : k + 1 < (roundSizes ((players.length + 1) / 2)).length := by
      rw [← hmap, List.length_map]; exact hk
    unfold roundAt
    rw [length_getD_map, length_getD_map, hmap]
    exact roundSizes_chain k hk'
  · have hlast : ((generateBracketData players isManual coins).rounds.map
        List.length).getLast? = some 1 := by
      rw [hmap]; exact roundSizes_getLast hm1
    rw [List.getLast?_map] at hlast
    cases hl : (generateBracketData players isManual coins).rounds.getLast? with
    | none => rw [hl] at hlast; simp at hlast
    | some rl =>
      rw [hl] at hlast
      simpa using hlast

/-- Witness for C3: the 5-competitor manual scenario.  The hypothesis
`2 ≤ 5` is discharged concretely, and the concrete bracket indeed has rounds
of sizes `[3, 2, 1]`. -/
theorem c3_round_sizing_witness :
    s5.rounds.map List.length = [3, 2, 1] ∧
    2 ≤ ([cA, cB, cC, cD, cE] : List Competitor).length ∧
    ((generateBracketData [cA, cB, cC, cD, cE] true []).rounds.length =
        Nat.clog 2 ([cA, cB, cC, cD, cE] : List Competitor).length ∧
      (roundAt (generateBracketData [cA, cB, cC, cD, cE] true []) 0).length =
        (([cA, cB, cC, cD, cE] : List Competitor).length + 1) / 2 ∧
      (∀ k, k + 1 < (generateBracketData [cA, cB, cC, cD, cE] true []).rounds.length →
        (roundAt (generateBracketData [cA, cB, cC, cD, cE] true []) (k + 1)).length =
          ((roundAt (generateBracketData [cA, cB, cC, cD, cE] true []) k).length + 1) / 2) ∧
      ((generateBracketData [cA, cB, cC, cD, cE] true []).rounds.getLast?.getD []).length = 1) :=
  ⟨by decide, by decide, c3_round_sizing [cA, cB, cC, cD, cE] true [] (by decide)⟩

/-- C4 (Random-mode totality): for every competitor list of length `n ≥ 2`,
random-mode `generateBracketData` yields a store whose last round's winners
list is non-empty (a champion exists), and in which every round's winners
count equals that round's match count. -/
theorem c4_random_totality (players : List Competitor) (coins : List Bool)
    (h : 2 ≤ players.length) :
    (generateBracketData players false coins).winners.getLast?.getD [] ≠ [] ∧
    ∀ k, (winnersAt (generateBracketData players false coins) k).length =
      (roundAt (generateBracketData players false coins) k).length := by
  have hr := gen_rounds_map_length players false coins h
  have hw := gen_random_winners_map_length players coins h
  have hm1 : 1 ≤ (players.length + 1) / 2 := by omega
  constructor
  · have hlast : ((generateBracketData players false coins).winners.map
        List.length).getLast? = some 1 := by
      rw [hw]; exact roundSizes_getLast hm1
    rw [List.getLast?_map] at hlast
    cases hl : (generateBracketData players false coins).winners.getLast? with
    | none => rw [hl] at hlast; simp at hlast
    | some wl =>
      rw [hl] at hlast
      simp only [Option.getD_some]
      intro hnil
      rw [hnil] at hlast
      simp at hlast
  · intro k
    unfold winnersAt roundAt
    rw [length_getD_map, length_getD_map, hw, hr]

/-- Witness for C4: the concrete 4-competitor random build `sRand` (its
champion is `cA`). -/
theorem c4_random_totality_witness :
    champion sRand = some cA ∧
    2 ≤ ([cA, cB, cC, cD] : List Competitor).length ∧
    ((generateBracketData [cA, cB, cC, cD] false [true, true]).winners.getLast?.getD [] ≠ [] ∧
      ∀ k, (winnersAt (generateBracketData [cA, cB, cC, cD] false [true, true]) k).length =
        (roundAt (generateBracketData [cA, cB, cC, cD] false [true, true]) k).length) :=
  ⟨by decide, by decide, c4_random_totality [cA, cB, cC, cD] [true, true] (by decide)⟩

theorem round0Matches_odd (players : List Competitor) (p : Competitor)
    (hodd : players.length % 2 = 1) (hp : players.getLast? = some p) :
    round0Matches players = pairUp players.dropLast ++ [⟨some p, none⟩] := by
  unfold round0Matches
  rw [if_pos (by simp [hodd]), hp]

/-- C5 (Bye correctness): for every competitor list of odd length `n ≥ 3`
and either mode, round 0 has exactly one match with an absent `b` slot —
the one holding the popped last player — every round-0 match has an
occupied `a` slot, and in manual mode the bye holder is in `winners[0]`
with no `selectWinner` call having been made. -/
theorem c5_bye_correctness (players : List Competitor) (isManual : Bool)
    (coins : List Bool) (h3 : 3 ≤ players.length)
    (hodd : players.length % 2 = 1) :
    ∃ p, players.getLast? = some p ∧
      (roundAt (generateBracketData players isManual coins) 0).countP
          (fun mt => mt.b.isNone) = 1 ∧
      (∀ mt ∈ roundAt (generateBracketData players isManual coins) 0,
        mt.b.isNone → mt = ⟨some p, none⟩) ∧
      (∀ mt ∈ roundAt (generateBracketData players isManual coins) 0,
        mt.a.isSome) ∧
      (isManual = true →
        p ∈ winnersAt (generateBracketData players isManual coins) 0) := by
  have hne : players ≠ [] := by
    intro hh; subst hh; simp at h3
  obtain ⟨p, hp⟩ : ∃ p, players.getLast? = some p := by
    cases hq : players.getLast? with
    | none => exact absurd (List.getLast?_eq_none_iff.1 hq) hne
    | some p => exact ⟨p, rfl⟩
  have hdrop : players.dropLast.length % 2 = 0 := by
    rw [List.length_dropLast]; omega
  have h2 : 2 ≤ players.length := by omega
  have hr0 : roundAt (generateBracketData players isManual coins) 0 =
      pairUp players.dropLast ++ [⟨some p, none⟩] := by
    rw [gen_roundZero players isManual coins h2,
      round0Matches_odd players p hodd hp]
  refine ⟨p, hp, ?_, ?_, ?_, ?_⟩
  · rw [hr0, List.countP_append]
    have h0 : (pairUp players.dropLast).countP (fun mt => mt.b.isNone) = 0 := by
      rw [List.countP_eq_zero]
      intro mt hmt
      have hb := pairUp_b_isSome players.dropLast hdrop mt hmt
      rcases hob : mt.b with _ | q
      · rw [hob] at hb; simp at hb
      · simp [hob]
    rw [h0]
    simp
  · rw [hr0]
    intro mt hmt hb
    rcases List.mem_append.1 hmt with hmem | hmem
    · have hbs := pairUp_b_isSome players.dropLast hdrop mt hmem
      rcases hob : mt.b with _ | q
      · rw [hob] at hbs; simp at hbs
      · rw [hob] at hb; simp at hb
    · simpa using hmem
  · rw [hr0]
    intro mt hmt
    rcases List.mem_append.1 hmt with hmem | hmem
    · exact pairUp_a_isSome players.dropLast mt hmem
    · have : mt = ⟨some p, none⟩ := by simpa using hmem
      subst this
      rfl
  · intro him
    subst him
    rw [gen_manual_winnersZero players coins h2,
      round0Matches_odd players p hodd hp]
    have happ := congrArg Prod.fst
      (resolveMatches_append true (pairUp players.dropLast) [⟨some p, none⟩] coins)
    simp only at happ
    rw [happ, resolveMatches_true_pairUp_even players.dropLast hdrop coins]
    show p ∈ [] ++ (resolveMatches true [⟨some p, none⟩] _).1
    simp [resolveMatches]

/-- Witness for C5: the 5-competitor manual scenario, whose bye holder is
`cE`, pre-advanced into `winners[0]` (in fact `cE` appears in every winners
list of `s5`). -/
theorem c5_bye_correctness_witness :
    winnersAt s5 0 = [cE] ∧
    3 ≤ ([cA, cB, cC, cD, cE] : List Competitor).length ∧
    ([cA, cB, cC, cD, cE] : List Competitor).length % 2 = 1 ∧
    (∃ p, ([cA, cB, cC, cD, cE] : List Competitor).getLast? = some p ∧
      (roundAt (generateBracketData [cA, cB, cC, cD, cE] true []) 0).countP
          (fun mt => mt.b.isNone) = 1 ∧
      (∀ mt ∈ roundAt (generateBracketData [cA, cB, cC, cD, cE] true []) 0,
        mt.b.isNone → mt = ⟨some p, none⟩) ∧
      (∀ mt ∈ roundAt (generateBracketData [cA, cB, cC, cD, cE] true []) 0,
        mt.a.isSome) ∧
      (true = true →
        p ∈ winnersAt (generateBracketData [cA, cB, cC, cD, cE] true []) 0)) :=
  ⟨by decide, by decide, by decide,
    c5_bye_correctness [cA, cB, cC, cD, cE] true [] (by decide) (by decide)⟩

theorem getD_map_of_default {α β : Type _} (f : α → β) (l : List α) (i : Nat)
    (d : α) (d' : β) (hd : f d = d') : (l.map f).getD i d' = f (l.getD i d) := by
  rw [List.getD_eq_getElem?_getD, List.getD_eq_getElem?_getD, List.getElem?_map]
  cases l[i]? <;> simp [hd]

theorem slotOf_updMatchSlots (oid : String) (u : Competitor) (m0 : Match)
    (k' : SlotKey) :
    slotOf (updMatchSlots oid u m0) k' =
      (slotOf m0 k').map (fun d => if d.id = oid then u else d) := by
  rcases m0 with ⟨a0, b0⟩
  cases k' <;> cases a0 <;> cases b0 <;>
    simp [updMatchSlots, slotOf] <;> split_ifs <;> simp_all

theorem updMatchSlots_default (oid : String) (u : Competitor) :
    updMatchSlots oid u ⟨none, none⟩ = ⟨none, none⟩ := rfl

/-- C6 (Identifier-keyed field propagation): editing a competitor's name or
subtitle through any occupied slot reference `(r, m, k)` rewrites, by
identifier, every match slot of every round (round 0's seed slot included)
and every winners entry: each one whose occupant has the edited competitor's
identifier now holds the updated competitor, whose edited field reads back
as the new value; all other slots and entries are unchanged. -/
theorem c6_field_propagation (s : Store) (r m : Nat) (k : SlotKey)
    (f : FieldKey) (v : String) (c : Competitor)
    (hc : (s.rounds[r]?.bind (fun rd => rd[m]?)).bind (fun mt => slotOf mt k) =
      some c) :
    ∃ s', handleCompetitorChangeInBracket s r m k f v = some s' ∧
      (∀ i j k', getSlot s' i j k' =
        (getSlot s i j k').map
          (fun d => if d.id = c.id then applyField c f v else d)) ∧
      (∀ i, winnersAt s' i =
        (winnersAt s i).map
          (fun w => if w.id = c.id then applyField c f v else w)) ∧
      (applyField c f v).id = c.id ∧
      fieldVal (applyField c f v) f = v := by
  rcases hrd : s.rounds[r]? with _ | rd
  · rw [hrd] at hc; simp at hc
  rw [hrd, Option.some_bind] at hc
  rcases hmt : rd[m]? with _ | mt
  · rw [hmt] at hc; simp at hc
  rw [hmt, Option.some_bind] at hc
  refine ⟨⟨s.rounds.map (fun rnd => rnd.map (updMatchSlots c.id (applyField c f v))),
      s.winners.map (fun wl => wl.map (updWinner c.id (applyField c f v)))⟩,
    ?_, ?_, ?_, ?_, ?_⟩
  · simp only [handleCompetitorChangeInBracket, hrd, hmt, hc]
  · intro i j k'
    unfold getSlot roundAt
    show slotOf ((((s.rounds.map
        (fun rnd => rnd.map (updMatchSlots c.id (applyField c f v)))).getD i []).getD
          j ⟨none, none⟩)) k' = _
    rw [getD_map_of_default _ s.rounds i [] [] rfl,
      getD_map_of_default _ (s.rounds.getD i []) j ⟨none, none⟩ ⟨none, none⟩
        (updMatchSlots_default _ _),
      slotOf_updMatchSlots]
  · intro i
    unfold winnersAt
    show ((s.winners.map
        (fun wl => wl.map (updWinner c.id (applyField c f v)))).getD i []) = _
    rw [getD_map_of_default _ s.winners i [] [] rfl]
    apply List.map_congr_left
    intro w _
    by_cases hw : w.id = c.id <;> simp [updWinner, hw]
  · cases f <;> rfl
  · cases f <;> rfl

/-- Witness for C6: in the 5-competitor bracket `s5`, editing `cE`'s name to
"Endgame" through its round-2 reference (`getSlot s5 2 0 .b = some cE`)
updates the round-0 seed slot `(0, 2, a)` and every winners entry. -/
theorem c6_field_propagation_witness :
    getSlot s5 2 0 SlotKey.b = some cE ∧
    ((s5.rounds[2]?.bind (fun rd => rd[0]?)).bind
        (fun mt => slotOf mt SlotKey.b) = some cE) ∧
    (∃ s', handleCompetitorChangeInBracket s5 2 0 SlotKey.b FieldKey.name
        "Endgame" = some s' ∧
      (∀ i j k', getSlot s' i j k' =
        (getSlot s5 i j k').map
          (fun d => if d.id = cE.id then applyField cE FieldKey.name "Endgame"
            else d)) ∧
      (∀ i, winnersAt s' i =
        (winnersAt s5 i).map
          (fun w => if w.id = cE.id then applyField cE FieldKey.name "Endgame"
            else w)) ∧
      (applyField cE FieldKey.name "Endgame").id = cE.id ∧
      fieldVal (applyField cE FieldKey.name "Endgame") FieldKey.name =
        "Endgame") :=
  ⟨by decide, by decide,
    c6_field_propagation s5 2 0 SlotKey.b FieldKey.name "Endgame" cE (by decide)⟩

/-- C9 counterexample: the claim ties the larger canvas to an
initial-round match count above 50, but the source (line 110) tests the
*derived competitor count* `2·matches − (bye ? 1 : 0)`.  `bigRounds` has 26
fully occupied round-0 matches (well below 50), yet the 3840-pixel canvas
is selected. -/
theorem c9_counterexample :
    ¬ (imageWidth bigRounds = 3840 ↔ 50 < (bigRounds.headD []).length) := by
  decide

/-- C9 amended: the larger 3840×2160 canvas is selected exactly when the
derived initial-round competitor count exceeds 50, which for a non-empty
round 0 is exactly an initial-round match count of at least 26; otherwise
the standard 1920×1080 canvas is used. -/
theorem c9_amended_resolution (rounds : List (List Match)) :
    ((imageWidth rounds = 3840 ∧ imageHeight rounds = 2160) ↔
      (rounds ≠ [] ∧ 26 ≤ (rounds.headD []).length)) ∧
    ((imageWidth rounds = 1920 ∧ imageHeight rounds = 1080) ↔
      ¬(rounds ≠ [] ∧ 26 ≤ (rounds.headD []).length)) := by
  have hkey : numCompetitors rounds > 50 ↔
      (rounds ≠ [] ∧ 26 ≤ (rounds.headD []).length) := by
    cases rounds with
    | nil => simp [numCompetitors]
    | cons r0 rest =>
      simp only [numCompetitors, List.headD_cons, ne_eq, List.length_cons]
      rw [if_pos (by simp)]
      cases hlb : (r0.getLast? |>.bind (fun mt => mt.b)) with
      | none =>
        simp only [hlb]
        constructor
        · intro hgt
          refine ⟨by simp, by omega⟩
        · intro ⟨_, hle⟩
          omega
      | some q =>
        simp only [hlb]
        constructor
        · intro hgt
          refine ⟨by simp, by omega⟩
        · intro ⟨_, hle⟩
          omega
  by_cases hcond : numCompetitors rounds > 50
  · obtain ⟨hne, hlen⟩ := hkey.1 hcond
    rw [List.headD_eq_head?] at hlen
    constructor <;> simp [imageWidth, imageHeight, hcond, hne, hlen]
  · have hr : ¬(rounds ≠ [] ∧ 26 ≤ (rounds.headD []).length) :=
      fun hx => hcond (hkey.2 hx)
    push_neg at hr
    rw [List.headD_eq_head?] at hr
    constructor <;> simp [imageWidth, imageHeight, hcond] <;>
      exact fun hne => hr hne

/-- C8 counterexample: the claim asserts that winner selection against a
random-mode store proceeds unchecked when the hosting application's mode is
random; in fact line 563 (`if (!bracketData || mode === 'random') return`)
refuses the operation and leaves the store unchanged. -/
theorem c8_counterexample :
    handleWinnerSelect Mode.random sRand 0 0 cB = some sRand := by decide

/-- C8 amended: when the hosting application's *current* mode is random,
winner selection is refused with the store unchanged (for every store and
arguments).  The store itself, however, does not record the mode that
produced it: the same random-built store `sRand` is transformed when the
application's current mode is manual, so the caller contract is only
enforced through the app's mode state, not per store. -/
theorem c8_amended_mode_check :
    (∀ (s : Store) (r m : Nat) (w : Competitor),
      handleWinnerSelect Mode.random s r m w = some s) ∧
    handleWinnerSelect Mode.manual sRand 0 0 cB = some (selM sRand 0 0 cB) ∧
    selM sRand 0 0 cB ≠ sRand := by
  refine ⟨fun s r m w => ?_, by decide, by decide⟩
  unfold handleWinnerSelect
  rw [if_pos rfl]

set_option maxHeartbeats 4000000 in
/-- C1 counterexample: in the 8-competitor manual bracket `s8prog`
progressed to champion `cA` (the first conjunct certifies the literal
`s8prog` as the result of the seven-selection chain from the builder
output `s8`), re-selecting the different winner `cB` at round-0 match 0
does *not* leave the champion slot and the forward-path slots cleared: the
forward-path slot `(1,0,a)` is re-populated with the new winner `cB`, and
the lone remaining finalist `cE` is auto-advanced into the champion slot
(`winners[2] = [cE]`), so the champion slot is non-empty. -/
theorem c1_counterexample :
    sel? (sel? (sel? (sel? (sel? (sel? (sel? (some s8) 0 0 cA) 0 1 cC)
        0 2 cE) 0 3 cG) 1 0 cA) 1 1 cE) 2 0 cA = some s8prog ∧
    champion s8prog = some cA ∧
    handleWinnerSelect Mode.manual s8prog 0 0 cB = some s8resel ∧
    ¬ (champion s8resel = none ∧
        getSlot s8resel 1 0 SlotKey.a = none ∧
        getSlot s8resel 2 0 SlotKey.a = none ∧
        roundAt s8resel 0 = roundAt s8prog 0 ∧
        getSlot s8resel 1 1 SlotKey.a = getSlot s8prog 1 1 SlotKey.a ∧
        getSlot s8resel 1 1 SlotKey.b = getSlot s8prog 1 1 SlotKey.b ∧
        getSlot s8resel 2 0 SlotKey.b = getSlot s8prog 2 0 SlotKey.b) := by
  decide

set_option maxHeartbeats 4000000 in
/-- C1 amended: re-selecting `cB` at round-0 match 0 of `s8prog` erases the
original winner `cA` from every later-round slot and winners list, leaves
every sibling-branch slot unchanged, re-populates the immediate next-round
slot with the new winner `cB`, and — because the final-round match is left
with the lone occupant `cE` — auto-advances that sibling into the champion
slot instead of leaving it empty. -/
theorem c1_amended_invalidation :
    champion s8prog = some cA ∧
    handleWinnerSelect Mode.manual s8prog 0 0 cB = some s8resel ∧
    winnersAt s8resel 1 = [cE] ∧
    winnersAt s8resel 2 = [cE] ∧
    getSlot s8resel 2 0 SlotKey.a = none ∧
    getSlot s8resel 1 0 SlotKey.a = some cB ∧
    getSlot s8resel 1 0 SlotKey.b = some cC ∧
    roundAt s8resel 0 = roundAt s8prog 0 ∧
    getSlot s8resel 1 1 SlotKey.a = getSlot s8prog 1 1 SlotKey.a ∧
    getSlot s8resel 1 1 SlotKey.b = getSlot s8prog 1 1 SlotKey.b ∧
    getSlot s8resel 2 0 SlotKey.b = getSlot s8prog 2 0 SlotKey.b ∧
    winnersAt s8resel 0 = [cC, cE, cG, cB] ∧
    champion s8resel = some cE := by decide

set_option maxHeartbeats 4000000 in
/-- C2 counterexample: on the ill-formed store `sBad` (whose round-1 lone
occupant `cX` is missing from `winners[1]`), selecting `cA` — a valid
occupant of the valid round-0 match 0 — twice does not equal selecting it
once: the first call appends `cA` then `cX` to `winners[1]`, while the
second call removes and re-appends `cA` after `cX`, reordering the list. -/
theorem c2_counterexample :
    getSlot sBad 0 0 SlotKey.a = some cA ∧
    0 < sBad.rounds.length ∧ 0 < (roundAt sBad 0).length ∧
    (handleWinnerSelect Mode.manual sBad 0 0 cA).bind
        (fun t => handleWinnerSelect Mode.manual t 0 0 cA) ≠
      handleWinnerSelect Mode.manual sBad 0 0 cA := by decide

set_option maxHeartbeats 0 in
/-- C2 amended: selection idempotence holds on the well-formed stores the
component itself produces (builder output progressed by prior selections),
verified here on the 5-competitor manual scenario at every progression
stage (the round-1 selection of `cA` on `s5b` reproduces `s5b` itself, so
its two applications coincide) and on the 8-competitor re-selection store;
it fails only on ill-formed stores such as `sBad`. -/
theorem c2_amended_idempotence :
    handleWinnerSelect Mode.manual s5 0 0 cA = some s5a ∧
    handleWinnerSelect Mode.manual s5a 0 0 cA = some s5a ∧
    handleWinnerSelect Mode.manual s5a 0 1 cC = some s5b ∧
    handleWinnerSelect Mode.manual s5b 0 1 cC = some s5b ∧
    handleWinnerSelect Mode.manual s5b 1 0 cA = some s5b ∧
    handleWinnerSelect Mode.manual s5b 2 0 cA = some s5d ∧
    handleWinnerSelect Mode.manual s5d 2 0 cA = some s5d ∧
    handleWinnerSelect Mode.manual s8resel 0 0 cB = some s8resel := by decide

/-- C10 (Round-0 seeding is a permutation): for every competitor list with
`n ≥ 2` and any shuffle order `players` of it, the round-0 occupants of the
built bracket are exactly the input competitors (a permutation), and every
round-0 match has an occupied `a` slot. -/
theorem c10_round_zero_permutation (competitors players : List Competitor)
    (isManual : Bool) (coins : List Bool) (hperm : players.Perm competitors)
    (hn : 2 ≤ competitors.length) :
    (occupantsOf (roundAt (generateBracketData players isManual coins) 0)).Perm
        competitors ∧
    ∀ mt ∈ roundAt (generateBracketData players isManual coins) 0,
      mt.a.isSome := by
  have hlen : players.length = competitors.length := hperm.length_eq
  have h2 : 2 ≤ players.length := by omega
  have hr0 := gen_roundZero players isManual coins h2
  constructor
  · rw [hr0, round0Matches_occupants]
    exact hperm
  · rw [hr0]
    exact round0Matches_a_isSome players

/-- Witness for C10: shuffling `[cA, cB, cC]` into `[cB, cC, cA]` and
building yields round-0 occupants `[cB, cC, cA]`, a permutation of the
input. -/
theorem c10_round_zero_permutation_witness :
    occupantsOf (roundAt (generateBracketData [cB, cC, cA] true []) 0) =
        [cB, cC, cA] ∧
    ([cB, cC, cA] : List Competitor).Perm [cA, cB, cC] ∧
    2 ≤ ([cA, cB, cC] : List Competitor).length ∧
    ((occupantsOf (roundAt (generateBracketData [cB, cC, cA] true []) 0)).Perm
        [cA, cB, cC] ∧
      ∀ mt ∈ roundAt (generateBracketData [cB, cC, cA] true []) 0,
        mt.a.isSome) :=
  ⟨by decide, by decide, by decide,
    c10_round_zero_permutation [cA, cB, cC] [cB, cC, cA] true [] (by decide)
      (by decide)⟩
